import Mathlib

/-
  Verification development for the mquickjs-ruby sandbox wrapper.

  The definitions below are a shallow embedding of the C sources:
    - ext/mquickjs/mquickjs_ext.c          (Ruby native extension)
    - mquickjs-ruby-ffi/lib/mquickjs/ffi/mquickjs_wrapper.c  (FFI twin)
  Host (Ruby) strings and script (JS) strings are modelled as lists of
  bytes (Nat).  Machine-level details that the wrapper code itself does
  not inspect (the engine's tagging of JSValues, IEEE doubles) are
  modelled by inductive constructors; every function mirrors the
  corresponding C function's control flow branch by branch.
-/

namespace MQJS

/-- A byte of host or script text, as a natural number. -/
abbrev Byte := Nat

/-- Bytes of an ASCII string literal (code points taken verbatim). -/
def bytesOfAscii (s : String) : List Byte := s.data.map Char.toNat

/-- The bytes of a C string: everything before the first NUL byte.
Models `strlen`-based copies such as `rb_str_new2`. -/
def takeUntilNul : List Byte → List Byte
  | [] => []
  | b :: rest => if b = 0 then [] else b :: takeUntilNul rest

/-- Fuel-driven decimal digit run of a natural number (most significant
digit first).  The fuel argument makes the recursion structural. -/
def natDecimalAux : Nat → Nat → List Byte
  | 0, _ => []
  | fuel + 1, n =>
    if n < 10 then [48 + n]
    else natDecimalAux fuel (n / 10) ++ [48 + n % 10]

/-- Decimal digit bytes of a natural number. -/
def natDecimalBytes (n : Nat) : List Byte := natDecimalAux (n + 1) n

/-- Models the textual decimal form of a host integer (Ruby's
`Integer#to_s`, and the engine's decimal rendering of an integer). -/
def intDecimalBytes (n : Int) : List Byte :=
  if n < 0 then 45 :: natDecimalBytes n.natAbs else natDecimalBytes n.natAbs

/- ===================== Bounded console capturer ===================== -/

/-- Console-capture state of a `ContextWrapper`:
`content` is `console_output[0 .. console_output_len)`,
`capacity` is `console_output_capacity`, `maxSize` is
`console_max_size` and `truncated` is `console_truncated`. -/
structure ConsoleState where
  content : List Byte
  capacity : Nat
  maxSize : Nat
  truncated : Bool
deriving DecidableEq, Repr

/-- The geometric capacity growth of `append_console_output`: double,
clamp to the cap, and raise to at least the space this append needs. -/
def newCapacity (s : ConsoleState) (needed : Nat) : Nat :=
  let c1 := s.capacity * 2
  let c2 := if s.maxSize < c1 then s.maxSize else c1
  if c2 < needed then needed else c2

/-- Translation of `append_console_output` (mquickjs_ext.c lines 85-125;
identical code in mquickjs_wrapper.c lines 128-169).  `allocOk` tells
whether the `realloc` call, if one is needed to grow the backing
storage, succeeds; on failure the C code returns without appending.
The C code writes `console_truncated = 1` before attempting the growth,
so the flag update (here the `||` with `toAppend < str.length`) sticks
even when the allocation fails and the bytes are dropped. -/
def append_console_output (allocOk : Bool) (s : ConsoleState) (str : List Byte) :
    ConsoleState :=
  if str.length = 0 then s
  else if s.maxSize ≤ s.content.length then { s with truncated := true }
  else
    let toAppend :=
      if str.length < s.maxSize - s.content.length then str.length
      else s.maxSize - s.content.length
    let tr := s.truncated || decide (toAppend < str.length)
    if s.capacity < s.content.length + toAppend then
      if allocOk then
        { s with truncated := tr,
                 capacity := newCapacity s (s.content.length + toAppend),
                 content := s.content ++ str.take toAppend }
      else { s with truncated := tr }
    else { s with truncated := tr, content := s.content ++ str.take toAppend }

/-- Console state as set up by `sandbox_initialize` / `mqjs_new_context`:
empty contents, capacity `min 1024 maxSize`, truncation flag clear. -/
def consoleInit (maxSize : Nat) : ConsoleState :=
  { content := [], capacity := min 1024 maxSize, maxSize := maxSize, truncated := false }

/-- Console reset performed on entry to `sandbox_eval` (lines 652-654):
length back to 0 and `console_truncated` back to 0; the backing
capacity and the configured cap are kept. -/
def evalResetConsole (s : ConsoleState) : ConsoleState :=
  { s with content := [], truncated := false }

/-- One console-affecting event of a session: an eval entry (which
resets the capturer) or an append with its allocation outcome. -/
inductive ConsoleOp where
  | reset
  | append (str : List Byte) (allocOk : Bool)
deriving DecidableEq, Repr

/-- Run a sequence of console events. -/
def runConsoleOps (s : ConsoleState) : List ConsoleOp → ConsoleState
  | [] => s
  | ConsoleOp.reset :: rest => runConsoleOps (evalResetConsole s) rest
  | ConsoleOp.append str ok :: rest => runConsoleOps (append_console_output ok s str) rest

/-- Run a sequence of appends (the events occurring inside one eval). -/
def runAppends (s : ConsoleState) : List (List Byte × Bool) → ConsoleState
  | [] => s
  | (str, ok) :: rest => runAppends (append_console_output ok s str) rest

/-- Concatenation of per-append byte prefixes: `joinTakes ks strs` glues
`strs[i].take ks[i]` together, describing buffer contents built only
from the listed appends. -/
def joinTakes : List Nat → List (List Byte) → List Byte
  | k :: ks, str :: rest => str.take k ++ joinTakes ks rest
  | _, _ => []

/-- Total byte count of a list of appends. -/
def totalLen (strs : List (List Byte)) : Nat := (strs.map List.length).sum

/- ===================== Value model ===================== -/

/-- Payload of a script 64-bit float: either an integer routed through
`JS_NewInt64` (value possibly rounded by the engine, which this model
does not inspect), or an opaque host double identified by an id. -/
inductive FloatVal where
  | ofInt (n : Int)
  | hostDouble (id : Nat)
deriving DecidableEq, Repr

/-- Script values as observed by the wrapper code.  The wrapper only
distinguishes the singletons `JS_NULL`/`JS_UNDEFINED`/`JS_TRUE`/
`JS_FALSE`/`JS_EXCEPTION`, tagged 32-bit integers, other numbers,
strings, and everything else (arrays, objects); this inductive mirrors
exactly those observations. -/
inductive JSValue where
  | null
  | undefined
  | jsbool (b : Bool)
  | exception
  | int32 (n : Int)
  | float64 (f : FloatVal)
  | string (bytes : List Byte)
  | array (elems : List JSValue)
  | object (props : List (List Byte × JSValue))

/-- Host (Ruby) values, by the `TYPE` tags the wrapper dispatches on.
`rint` covers both `T_FIXNUM` and `T_BIGNUM` (separated by
`isFixnum`); `robj` is any other object, carrying the byte run its
`to_s` produces. -/
inductive RubyValue where
  | rnil
  | rbool (b : Bool)
  | rint (n : Int)
  | rfloat (f : FloatVal)
  | rstring (bytes : List Byte)
  | rsymbol (sname : List Byte)
  | rarray (elems : List RubyValue)
  | rhash (pairs : List (RubyValue × RubyValue))
  | robj (toS : List Byte)

/-- Result of `js_to_ruby`: an ordinary Ruby value, or `Qundef` (the
internal no-value marker produced for the exception sentinel). -/
inductive RubyRet where
  | val (v : RubyValue)
  | undef

/-- Property update as performed by `JS_SetPropertyStr`: overwrite the
existing property in place, else append a new one. -/
def setProp (props : List (List Byte × JSValue)) (key : List Byte) (v : JSValue) :
    List (List Byte × JSValue) :=
  match props with
  | [] => [(key, v)]
  | (k, w) :: rest => if k = key then (k, v) :: rest else (k, w) :: setProp rest key v

/-- Property lookup as performed by `JS_GetPropertyStr` on an object:
first binding wins, missing properties read as `undefined`. -/
def getProp (props : List (List Byte × JSValue)) (key : List Byte) : JSValue :=
  match props with
  | [] => JSValue.undefined
  | (k, w) :: rest => if k = key then w else getProp rest key

mutual

/-- Modelled from the spec: the engine's own to-string coercion
(`JS_ToString`), which the wrapper consumes but whose code lives in the
external mquickjs engine.  Arrays join their elements with `,` (null
and undefined joining as empty), plain objects print as
`[object Object]`, integers print in decimal.  The textual forms of
opaque host doubles and of the exception sentinel are engine-defined
and not observed by any claim; they are given harmless placeholder
renderings here. -/
def jsToString : JSValue → List Byte
  | .null => bytesOfAscii "null"
  | .undefined => bytesOfAscii "undefined"
  | .jsbool true => bytesOfAscii "true"
  | .jsbool false => bytesOfAscii "false"
  | .exception => []
  | .int32 n => intDecimalBytes n
  | .float64 (.ofInt n) => intDecimalBytes n
  | .float64 (.hostDouble id) => bytesOfAscii "1e" ++ natDecimalBytes id
  | .string bs => bs
  | .array es => joinElems es
  | .object _ => bytesOfAscii "[object Object]"

/-- Element joining of `Array.prototype.toString`: `,`-separated, with
null and undefined elements rendering as the empty run. -/
def joinElems : List JSValue → List Byte
  | [] => []
  | e :: rest =>
    let s := match e with
      | .null => []
      | .undefined => []
      | v => jsToString v
    match rest with
    | [] => s
    | _ :: _ => s ++ [44] ++ joinElems rest

end

/-- `JS_ToCString` on an arbitrary value: string conversion that can
only fail (return NULL) on the exception sentinel in this model. -/
def jsToCStringOpt : JSValue → Option (List Byte)
  | .exception => none
  | v => some (jsToString v)

/-- The `JS_IsException` test. -/
def isExceptionV : JSValue → Bool
  | .exception => true
  | _ => false

/-- The `JS_IsUndefined(v) || JS_IsNull(v)` test. -/
def isUndefOrNull : JSValue → Bool
  | .undefined => true
  | .null => true
  | _ => false

/-- Translation of `js_to_ruby` (mquickjs_ext.c lines 351-413).  The
C function tests, in order: `JS_NULL`, `JS_UNDEFINED`, `JS_TRUE`,
`JS_FALSE`, `JS_EXCEPTION`, the integer tag bit, `JS_IsNumber`,
`JS_IsString`, and finally falls back to `JS_ToString`.  There is no
array case: arrays take the same fallback as objects.  String results
go through `rb_str_new2`, which copies up to the first NUL. -/
def js_to_ruby : JSValue → RubyRet
  | .null => .val .rnil
  | .undefined => .val .rnil
  | .jsbool true => .val (.rbool true)
  | .jsbool false => .val (.rbool false)
  | .exception => .undef
  | .int32 n => .val (.rint n)
  | .float64 f => .val (.rfloat f)
  | .string bs => .val (.rstring (takeUntilNul bs))
  | v => .val (.rstring (takeUntilNul (jsToString v)))

/- ===================== Host → script marshaler ===================== -/

/-- How a run of `ruby_to_js` can abort: with the engine's exception
sentinel (`JS_EXCEPTION`, e.g. when an engine allocation fails), or
with a Ruby-level `ArgumentError` raised by `StringValueCStr` on a
string containing an embedded NUL byte. -/
inductive MarshalErr where
  | jsException
  | nullByteArg
deriving DecidableEq, Repr

/-- Ruby's 64-bit-platform `T_FIXNUM` test: immediate integers span
`-2^62 .. 2^62 - 1`; anything larger is a `T_BIGNUM`. -/
def isFixnum (n : Int) : Bool := decide (-(2 ^ 62) ≤ n ∧ n < 2 ^ 62)

/-- The `INT32_MIN ≤ val && val ≤ INT32_MAX` test of `ruby_to_js`. -/
def inInt32Range (n : Int) : Bool := decide (-(2 ^ 31) ≤ n ∧ n < 2 ^ 31)

/-- Modelled from the spec: the engine's `JS_NewInt64`, which produces
a tagged 32-bit integer for values in range and a 64-bit float
otherwise ("integral number outside that range ... 64-bit float"). -/
def JS_NewInt64 (n : Int) : JSValue :=
  if inInt32Range n then .int32 n else .float64 (.ofInt n)

/-- The `to_s`-fallback tail of `ruby_to_js` (lines 552-554):
`JS_NewString(ctx, StringValueCStr(rb_str))`; `StringValueCStr` raises
`ArgumentError` when the text contains an embedded NUL. -/
def rubyFallbackString (bs : List Byte) : Except MarshalErr JSValue :=
  if 0 ∈ bs then .error .nullByteArg else .ok (.string bs)

/-- Modelled from the spec: Ruby's generic `to_s` ("else default
textual form"), used by `ruby_to_js` on hash keys that are neither
symbols nor strings.  The textual forms of composite or floating-point
keys are host-runtime-defined and not observed by any claim; they are
given placeholder renderings. -/
def rubyToS : RubyValue → List Byte
  | .rnil => []
  | .rbool true => bytesOfAscii "true"
  | .rbool false => bytesOfAscii "false"
  | .rint n => intDecimalBytes n
  | .rfloat (.ofInt n) => intDecimalBytes n ++ bytesOfAscii ".0"
  | .rfloat (.hostDouble id) => bytesOfAscii "1e" ++ natDecimalBytes id
  | .rstring bs => bs
  | .rsymbol sname => sname
  | .rarray _ => bytesOfAscii "(array)"
  | .rhash _ => bytesOfAscii "(hash)"
  | .robj ts => ts

/-- Key coercion inside the hash branch of `ruby_to_js` (lines 514-526):
symbols by `rb_id2name` (a C string), strings via `StringValueCStr`
(raising on embedded NUL), anything else via `to_s` followed by
`StringValueCStr`. -/
def keyToBytes : RubyValue → Except MarshalErr (List Byte)
  | .rsymbol sname => .ok (takeUntilNul sname)
  | .rstring bs => if 0 ∈ bs then .error .nullByteArg else .ok bs
  | k =>
    let ts := rubyToS k
    if 0 ∈ ts then .error .nullByteArg else .ok ts

mutual

/-- Translation of `ruby_to_js` (mquickjs_ext.c lines 416-555).  The C
function dispatches on `TYPE(rb_val)` in order `T_FIXNUM`, `T_FLOAT`,
`T_STRING`, `T_SYMBOL`, `T_ARRAY`, `T_HASH`, then falls back to
`to_s`.  Integers beyond the Fixnum range are `T_BIGNUM` and therefore
reach the fallback.  `alloc` tells whether engine allocations
(`JS_NewArray`, `JS_NewObject`) succeed; on failure the C code
receives `JS_EXCEPTION` and propagates it. -/
def ruby_to_js (alloc : Bool) : RubyValue → Except MarshalErr JSValue
  | .rnil => .ok .null
  | .rbool b => .ok (.jsbool b)
  | .rint n =>
    if isFixnum n then
      if inInt32Range n then .ok (.int32 n) else .ok (JS_NewInt64 n)
    else
      rubyFallbackString (intDecimalBytes n)
  | .rfloat f => .ok (.float64 f)
  | .rstring bs => if 0 ∈ bs then .error .nullByteArg else .ok (.string bs)
  | .rsymbol sname => .ok (.string (takeUntilNul sname))
  | .rarray es =>
    if alloc then
      match convElems alloc es with
      | .ok js => .ok (.array js)
      | .error e => .error e
    else .error .jsException
  | .rhash ps =>
    if alloc then
      match convPairs alloc [] ps with
      | .ok props => .ok (.object props)
      | .error e => .error e
    else .error .jsException
  | .robj ts => rubyFallbackString ts

/-- The element loop of the `T_ARRAY` branch: convert in order,
aborting on the first element that yields the exception sentinel. -/
def convElems (alloc : Bool) : List RubyValue → Except MarshalErr (List JSValue)
  | [] => .ok []
  | v :: rest =>
    match ruby_to_js alloc v with
    | .error e => .error e
    | .ok j =>
      match convElems alloc rest with
      | .error e => .error e
      | .ok js => .ok (j :: js)

/-- The `rb_hash_foreach` loop of the `T_HASH` branch: coerce the key,
convert the value (stopping at the first failure), then
`JS_SetPropertyStr` the pair onto the object under construction. -/
def convPairs (alloc : Bool) (acc : List (List Byte × JSValue)) :
    List (RubyValue × RubyValue) → Except MarshalErr (List (List Byte × JSValue))
  | [] => .ok acc
  | (k, v) :: rest =>
    match keyToBytes k with
    | .error e => .error e
    | .ok kb =>
      match ruby_to_js alloc v with
      | .error e => .error e
      | .ok j => convPairs alloc (setProp acc kb j) rest

end

/- ===================== print ===================== -/

/-- One argument of `js_print`: strings are appended with their exact
byte length (`JS_ToCStringLen`); other values go through `JS_ToString`
first and are skipped when that conversion yields the exception
sentinel. -/
def jsPrintArg (allocOk : Bool) (s : ConsoleState) (v : JSValue) : ConsoleState :=
  match v with
  | .string bs => append_console_output allocOk s bs
  | .exception => s
  | v => append_console_output allocOk s (jsToString v)

/-- The argument loop of `js_print`: a single separator byte `' '`
before every argument except the first. -/
def jsPrintLoop (allocOk : Bool) (first : Bool) (s : ConsoleState) :
    List JSValue → ConsoleState
  | [] => s
  | a :: rest =>
    let s1 := if first then s else append_console_output allocOk s [32]
    jsPrintLoop allocOk false (jsPrintArg allocOk s1 a) rest

/-- Translation of `js_print` (mquickjs_ext.c lines 128-159; identical
code in mquickjs_wrapper.c lines 34-67): the argument loop followed by
exactly one `"\n"` append. -/
def js_print (allocOk : Bool) (s : ConsoleState) (args : List JSValue) : ConsoleState :=
  append_console_output allocOk (jsPrintLoop allocOk true s args) [10]

/-- The text a `print` call contributes, per the argument list: the
stringified arguments joined by one separator byte. -/
def stringifyPrintArg : JSValue → List Byte
  | .string bs => bs
  | v => jsToString v

/-- Separator-joined rendering of a print argument list: nothing before
the first argument, one `' '` byte before each later one. -/
def printJoined : List JSValue → List Byte
  | [] => []
  | a :: rest => stringifyPrintArg a ++ (rest.map (fun b => 32 :: stringifyPrintArg b)).flatten

/- ===================== eval outcome classification ===================== -/

/-- Host-visible outcome of one `Sandbox#eval` call. -/
inductive EvalOutcome where
  | timedOut
  | syntaxErr (msg : List Byte)
  | scriptErr (msg : List Byte) (stack : Option (List Byte))
  | completed (value : RubyRet) (console : List Byte) (truncated : Bool)

/-- What `sandbox_eval` reads off the engine's exception state after
`JS_Eval` returns the exception sentinel: the exception's class id
(`JS_GetClassID`), its `JS_ToCString` text (`none` models a NULL
return), and its `stack` property. -/
structure EngineExcInfo where
  classId : Int
  excText : Option (List Byte)
  stackProp : JSValue

/-- The literal `"SyntaxError"` compared by `strncmp(msg, "SyntaxError", 11)`. -/
def syntaxLit : List Byte := bytesOfAscii "SyntaxError"

/-- Fallback message used when `JS_ToCString` returned NULL. -/
def defaultErrMsg : List Byte := bytesOfAscii "JavaScript error"

/-- Translation of the post-`JS_Eval` tail of `sandbox_eval`
(mquickjs_ext.c lines 673-725): first the `timed_out` check (raising
`TimeoutError`), then the exception check with the SyntaxError /
JavaScriptError split, then the completed result with the marshalled
value and the console contents. -/
def classify_eval (timedOut : Bool) (result : JSValue) (exc : EngineExcInfo)
    (console : ConsoleState) : EvalOutcome :=
  if timedOut then .timedOut
  else if isExceptionV result then
    let isSyn : Bool :=
      (exc.classId == 13) ||
        (match exc.excText with
         | some m => m.take 11 == syntaxLit
         | none => false)
    if isSyn then .syntaxErr (exc.excText.getD defaultErrMsg)
    else
      let stack :=
        if isUndefOrNull exc.stackProp then none
        else some (takeUntilNul (jsToString exc.stackProp))
      .scriptErr (exc.excText.getD defaultErrMsg) stack
  else .completed (js_to_ruby result) console.content console.truncated

/- ===================== fetch ===================== -/

/-- The hash the configured HTTP callback returns; every field may be
absent (`nil`). -/
structure CallbackResponse where
  status : Option Int
  statusText : Option (List Byte)
  body : Option (List Byte)
  headers : Option (List (List Byte × List Byte))

/-- A configured HTTP callback: `(method, url, body, headers) ↦ response`. -/
abbrev HttpCallback :=
  List Byte → List Byte → Option (List Byte) → List (List Byte × List Byte) → CallbackResponse

/-- How `js_fetch` can abort instead of returning a response object:
a thrown script error (`JS_ThrowError` with `JS_CLASS_ERROR`), a thrown
type error (`JS_CLASS_TYPE_ERROR`), or a Ruby-level raise while reading
the callback's response (`NUM2INT` range check, `StringValueCStr` NUL
check). -/
inductive FetchErr where
  | jsError (msg : List Byte)
  | typeError (msg : List Byte)
  | rubyRaise
deriving Repr

/-- `JS_GetPropertyStr` as used on the `options` argument: property of
an object, `undefined` for anything else. -/
def getPropJS (v : JSValue) (key : List Byte) : JSValue :=
  match v with
  | .object props => getProp props key
  | _ => JSValue.undefined

/-- The response object `js_fetch` builds, property by property in the
order the C code sets them; `headers` is always a fresh empty object. -/
def mkFetchResponse (status : Int) (statusText body : List Byte) : JSValue :=
  .object
    [(bytesOfAscii "status", .int32 status),
     (bytesOfAscii "statusText", .string statusText),
     (bytesOfAscii "ok", .jsbool (decide (200 ≤ status ∧ status < 300))),
     (bytesOfAscii "body", .string body),
     (bytesOfAscii "headers", .object [])]

/-- Translation of `js_fetch` (mquickjs_ext.c lines 192-281), run with
the ambient wrapper present: feature-disabled error when no callback is
stored, argument and url checks, `method`/`body` extraction from the
options object, the synchronous callback invocation (always passed an
empty header hash), and the response-object construction with defaults
`status 200`, `statusText "OK"`, `body ""`. -/
def js_fetch (cb : Option HttpCallback) (args : List JSValue) :
    Except FetchErr JSValue :=
  match cb with
  | none =>
    .error (.jsError (bytesOfAscii "fetch() is not enabled - HTTP callback not configured"))
  | some callback =>
    if args.length < 1 then
      .error (.typeError (bytesOfAscii "fetch() requires at least 1 argument (url)"))
    else
      match jsToCStringOpt (args.getD 0 JSValue.undefined) with
      | none => .error (.typeError (bytesOfAscii "fetch() url must be a string"))
      | some url =>
        let opts := args.getD 1 JSValue.undefined
        let useOpts : Bool := decide (2 ≤ args.length) && !(isUndefOrNull opts)
        let methodBytes :=
          if useOpts then
            let mval := getPropJS opts (bytesOfAscii "method")
            if isUndefOrNull mval then bytesOfAscii "GET"
            else
              match jsToCStringOpt mval with
              | some ms => ms
              | none => bytesOfAscii "GET"
          else bytesOfAscii "GET"
        let bodyBytes :=
          if useOpts then
            let bval := getPropJS opts (bytesOfAscii "body")
            if isUndefOrNull bval then none
            else jsToCStringOpt bval
          else none
        let resp := callback methodBytes url bodyBytes []
        let status := resp.status.getD 200
        if inInt32Range status then
          let statusText := resp.statusText.getD (bytesOfAscii "OK")
          if 0 ∈ statusText then .error .rubyRaise
          else
            let bodyText := resp.body.getD []
            if 0 ∈ bodyText then .error .rubyRaise
            else .ok (mkFetchResponse status statusText bodyText)
        else .error .rubyRaise

/- ===================== set_variable ===================== -/

/-- Errors `sandbox_set_variable` can raise to the host. -/
inductive HostErr where
  | argumentError
  | runtimeError
  | noMemError
deriving DecidableEq, Repr

/-- Translation of `sandbox_set_variable` (mquickjs_ext.c lines
727-758): `StringValueCStr(name)` (raising `ArgumentError` on an
embedded NUL), the empty-name guard (`ArgumentError`), then
`ruby_to_js` — a `JS_EXCEPTION` result raises `RuntimeError`, a
Ruby-level raise from inside the marshaler propagates — and finally
`JS_SetPropertyStr` on the global object. -/
def sandbox_set_variable (alloc : Bool) (globalProps : List (List Byte × JSValue))
    (vname : List Byte) (value : RubyValue) :
    Except HostErr (List (List Byte × JSValue)) :=
  if 0 ∈ vname then .error .argumentError
  else if vname = [] then .error .argumentError
  else
    match ruby_to_js alloc value with
    | .error .jsException => .error .runtimeError
    | .error .nullByteArg => .error .argumentError
    | .ok j => .ok (setProp globalProps vname j)

/- ===================== session construction ===================== -/

/-- The pointer-valued fields of a `ContextWrapper` as left in memory;
block ids: 0 = the wrapper struct itself, 1 = `mem_buf`,
2 = `console_output`, 3 = the JS context. -/
structure CWrapperFields where
  memBuf : Option Nat
  consoleBuf : Option Nat
  jsctx : Option Nat
deriving DecidableEq, Repr

/-- Outcome of one `Sandbox.new` attempt: the error raised (if any),
the heap blocks still allocated afterwards, and the wrapper fields —
the Ruby object created by `sandbox_alloc` keeps referencing block 0
(via `TypedData_Wrap_Struct`) whether or not `initialize` raised. -/
structure RubyInitResult where
  raised : Option HostErr
  live : List Nat
  fields : CWrapperFields
deriving DecidableEq, Repr

/-- Translation of `sandbox_alloc` plus `sandbox_initialize`
(mquickjs_ext.c lines 344-348 and 558-625) as a heap trace.  The three
Booleans say whether the `mem_buf` malloc, the console-buffer malloc
and `JS_NewContext` succeed.  On a console-buffer failure the C code
frees `mem_buf` and the wrapper itself and raises `NoMemError`; on a
context failure it frees the console buffer and `mem_buf` and raises
`RuntimeError`; in both cases the wrapper fields keep their old pointer
values. -/
def sandboxInitModel (okMem okConsole okCtx : Bool) : RubyInitResult :=
  let live : List Nat := [0]
  if ¬okMem then
    { raised := some .noMemError, live := live, fields := ⟨none, none, none⟩ }
  else
    let live := 1 :: live
    if ¬okConsole then
      let live := (live.erase 1).erase 0
      { raised := some .noMemError, live := live, fields := ⟨some 1, none, none⟩ }
    else
      let live := 2 :: live
      if ¬okCtx then
        let live := (live.erase 2).erase 1
        { raised := some .runtimeError, live := live, fields := ⟨some 1, some 2, none⟩ }
      else
        { raised := none, live := 3 :: live, fields := ⟨some 1, some 2, some 3⟩ }

/-- The pointers stored in a wrapper's fields. -/
def fieldPtrList (f : CWrapperFields) : List Nat :=
  [f.memBuf, f.consoleBuf, f.jsctx].filterMap id

/-- A partially-initialized session with dangling internals is
reachable: the host still references the wrapper block, and either that
block itself was freed or a wrapper field points at a freed block. -/
def danglingReachable (r : RubyInitResult) : Bool :=
  !(r.live.contains 0) || (fieldPtrList r.fields).any (fun p => !(r.live.contains p))

/-- Outcome of one `mqjs_new_context` call: the returned pointer
(`none` = NULL) and the heap blocks still allocated. -/
structure FfiInitResult where
  ret : Option Nat
  live : List Nat
deriving DecidableEq, Repr

/-- Translation of `mqjs_new_context` (mquickjs_wrapper.c lines
172-217) as a heap trace: on any allocation failure it frees every
block allocated so far, including the wrapper struct, and returns
NULL. -/
def mqjsNewContextModel (okWrapper okMem okConsole okCtx : Bool) : FfiInitResult :=
  if ¬okWrapper then { ret := none, live := [] }
  else
    let live : List Nat := [0]
    if ¬okMem then { ret := none, live := live.erase 0 }
    else
      let live := 1 :: live
      if ¬okConsole then { ret := none, live := (live.erase 1).erase 0 }
      else
        let live := 2 :: live
        if ¬okCtx then { ret := none, live := ((live.erase 2).erase 1).erase 0 }
        else { ret := some 0, live := 3 :: live }

/-- The byte runs contributed by the non-first print arguments: one
separator byte, then the stringified argument, for each of them. -/
def sepJoin (args : List JSValue) : List Byte :=
  (args.map (fun b => 32 :: stringifyPrintArg b)).flatten

/- ===================== Console lemmas ===================== -/

theorem append_maxSize (ok : Bool) (s : ConsoleState) (str : List Byte) :
    (append_console_output ok s str).maxSize = s.maxSize := by
  unfold append_console_output
  dsimp only
  repeat' split
  all_goals rfl

theorem append_truncated_mono (ok : Bool) (s : ConsoleState) (str : List Byte)
    (h : s.truncated = true) : (append_console_output ok s str).truncated = true := by
  unfold append_console_output
  dsimp only
  repeat' split
  all_goals simp_all

theorem append_content_take (ok : Bool) (s : ConsoleState) (str : List Byte) :
    ∃ k, (append_console_output ok s str).content = s.content ++ str.take k := by
  unfold append_console_output
  dsimp only
  repeat' split
  all_goals first
    | (refine ⟨0, ?_⟩; simp; done)
    | (refine ⟨str.length, ?_⟩; simp; done)
    | (refine ⟨s.maxSize - s.content.length, ?_⟩; simp; done)

theorem append_len_le (ok : Bool) (s : ConsoleState) (str : List Byte)
    (h : s.content.length ≤ s.maxSize) :
    (append_console_output ok s str).content.length ≤ s.maxSize := by
  unfold append_console_output
  dsimp only
  repeat' split
  all_goals simp_all
  all_goals omega

theorem append_len_ok (s : ConsoleState) (str : List Byte)
    (h : s.content.length ≤ s.maxSize) :
    (append_console_output true s str).content.length
      = min s.maxSize (s.content.length + str.length) := by
  unfold append_console_output
  dsimp only
  repeat' split
  all_goals simp_all
  all_goals omega

theorem runAppends_maxSize (l : List (List Byte × Bool)) :
    ∀ s : ConsoleState, (runAppends s l).maxSize = s.maxSize := by
  induction l with
  | nil => intro s; rfl
  | cons p rest ih =>
    intro s
    obtain ⟨str, ok⟩ := p
    rw [runAppends, ih, append_maxSize]

theorem runAppends_truncated_mono (l : List (List Byte × Bool)) :
    ∀ s : ConsoleState, s.truncated = true → (runAppends s l).truncated = true := by
  induction l with
  | nil => intro s h; exact h
  | cons p rest ih =>
    intro s h
    obtain ⟨str, ok⟩ := p
    exact ih _ (append_truncated_mono ok s str h)

theorem runAppends_content_take (l : List (List Byte × Bool)) :
    ∀ s : ConsoleState, ∃ ks : List Nat, ks.length = l.length ∧
      (runAppends s l).content = s.content ++ joinTakes ks (l.map Prod.fst) := by
  induction l with
  | nil => intro s; exact ⟨[], rfl, by simp [runAppends, joinTakes]⟩
  | cons p rest ih =>
    intro s
    obtain ⟨str, ok⟩ := p
    obtain ⟨k, hk⟩ := append_content_take ok s str
    obtain ⟨ks, hlen, hrun⟩ := ih (append_console_output ok s str)
    refine ⟨k :: ks, by simp [hlen], ?_⟩
    rw [runAppends, hrun, hk]
    simp [joinTakes]

theorem runConsoleOps_maxSize (ops : List ConsoleOp) :
    ∀ s : ConsoleState, (runConsoleOps s ops).maxSize = s.maxSize := by
  induction ops with
  | nil => intro s; rfl
  | cons op rest ih =>
    intro s
    cases op with
    | reset => rw [runConsoleOps, ih]; rfl
    | append str ok => rw [runConsoleOps, ih, append_maxSize]

theorem runConsoleOps_len_le (ops : List ConsoleOp) :
    ∀ s : ConsoleState, s.content.length ≤ s.maxSize →
      (runConsoleOps s ops).content.length ≤ s.maxSize := by
  induction ops with
  | nil => intro s h; exact h
  | cons op rest ih =>
    intro s h
    cases op with
    | reset =>
      rw [runConsoleOps]
      have := ih (evalResetConsole s) (by simp [evalResetConsole])
      simpa [evalResetConsole] using this
    | append str ok =>
      rw [runConsoleOps]
      have h1 : (append_console_output ok s str).content.length
          ≤ (append_console_output ok s str).maxSize := by
        rw [append_maxSize]; exact append_len_le ok s str h
      have := ih (append_console_output ok s str) h1
      rwa [append_maxSize] at this

theorem runAppends_len_ok (l : List (List Byte)) :
    ∀ s : ConsoleState, s.content.length ≤ s.maxSize →
      (runAppends s (l.map (fun bs => (bs, true)))).content.length
        = min s.maxSize (s.content.length + totalLen l) := by
  induction l with
  | nil => intro s h; simp [runAppends, totalLen]; omega
  | cons bs rest ih =>
    intro s h
    rw [List.map_cons, runAppends]
    have h1 : (append_console_output true s bs).content.length
        ≤ (append_console_output true s bs).maxSize := by
      rw [append_maxSize]; exact append_len_le true s bs h
    rw [ih (append_console_output true s bs) h1, append_maxSize,
      append_len_ok s bs h]
    simp only [totalLen, List.map_cons, List.sum_cons]
    omega

/- ===================== Claim C2 ===================== -/

/-- C2.  Over any sequence of console appends and eval-entry resets on
one session: (1) starting from the freshly constructed console state,
the buffer length never exceeds the configured `console_max_size`;
(2) once `truncated` is set, any further appends (i.e. the remainder of
the current eval) leave it set; (3) an eval entry resets the contents
to empty and `truncated` to false; (4) after an eval-entry reset, the
buffer contents are glued together exclusively from prefixes of the
byte runs appended after that reset, so no console content from an
earlier eval can appear in the next eval's output. -/
theorem console_session_invariants :
    (∀ (maxSize : Nat) (ops : List ConsoleOp),
      (runConsoleOps (consoleInit maxSize) ops).content.length ≤ maxSize) ∧
    (∀ (s : ConsoleState) (l : List (List Byte × Bool)),
      (runAppends { s with truncated := true } l).truncated = true) ∧
    (∀ s : ConsoleState,
      (evalResetConsole s).content = [] ∧ (evalResetConsole s).truncated = false) ∧
    (∀ (s : ConsoleState) (l : List (List Byte × Bool)),
      ∃ ks : List Nat, ks.length = l.length ∧
        (runAppends (evalResetConsole s) l).content = joinTakes ks (l.map Prod.fst)) := by
  refine ⟨?_, ?_, ?_, ?_⟩
  · intro maxSize ops
    exact runConsoleOps_len_le ops (consoleInit maxSize) (by simp [consoleInit])
  · intro s l
    exact runAppends_truncated_mono l { s with truncated := true } rfl
  · intro s
    exact ⟨rfl, rfl⟩
  · intro s l
    obtain ⟨ks, hlen, hrun⟩ := runAppends_content_take l (evalResetConsole s)
    exact ⟨ks, hlen, by simpa [evalResetConsole] using hrun⟩

/- ===================== Claim C5 ===================== -/

/-- C5 counterexample.  The claim states that for EVERY append, when
the current length is already at or above the cap the truncated flag is
set.  The code ignores zero-length appends before that check
(`if (!wrapper || !str || len == 0) return;`), so appending the empty
byte run to a buffer that exactly reached its cap (reachable, and
reached here by one exact-fit append that does not truncate) leaves
`truncated` false, contradicting the claim as stated. -/
theorem append_at_cap_empty_no_truncate :
    (append_console_output true (consoleInit 1) [97]).content.length = 1 ∧
    (append_console_output true (consoleInit 1) [97]).maxSize = 1 ∧
    (append_console_output true (consoleInit 1) [97]).truncated = false ∧
    (append_console_output true
        (append_console_output true (consoleInit 1) [97]) []).truncated = false := by
  decide

/-- C5, amended: the cap/truncation bookkeeping of
`append_console_output`, restricted to the nonempty appends the code
actually processes (zero-length appends return before any flag
update), and with the cumulative-cap clause under successful growth
allocations (on an allocation failure the append is dropped, so the
cumulative clause cannot hold unconditionally):
(1) a nonempty append to a buffer at or above the cap only sets
`truncated` and drops the bytes;
(2) below the cap (allocation succeeding) exactly
`min (str.length) (maxSize - length)` bytes are appended, and
`truncated` ends up set iff it was set before or fewer than
`str.length` bytes fit;
(3) if growth is needed and the allocation fails, the bytes are
dropped and the prior contents are unchanged (the function still
returns a state: no error is propagated);
(4) any run of appends from a fresh console whose total length exceeds
the cap fills the buffer to exactly the cap. -/
theorem append_console_output_spec :
    (∀ (ok : Bool) (s : ConsoleState) (str : List Byte), str ≠ [] →
      s.maxSize ≤ s.content.length →
      append_console_output ok s str = { s with truncated := true }) ∧
    (∀ (s : ConsoleState) (str : List Byte), s.content.length < s.maxSize →
      (append_console_output true s str).content
          = s.content ++ str.take (min str.length (s.maxSize - s.content.length)) ∧
      (append_console_output true s str).truncated
          = (s.truncated || decide (s.maxSize - s.content.length < str.length))) ∧
    (∀ (s : ConsoleState) (str : List Byte), s.content.length < s.maxSize →
      s.capacity < s.content.length + min str.length (s.maxSize - s.content.length) →
      (append_console_output false s str).content = s.content) ∧
    (∀ (maxSize : Nat) (l : List (List Byte)), maxSize < totalLen l →
      (runAppends (consoleInit maxSize) (l.map (fun bs => (bs, true)))).content.length
        = maxSize) := by
  refine ⟨?_, ?_, ?_, ?_⟩
  · intro ok s str hne hcap
    unfold append_console_output
    rw [if_neg (by simpa using hne), if_pos hcap]
  · intro s str hlt
    unfold append_console_output
    dsimp only
    repeat' split
    all_goals simp_all
    all_goals omega
  · intro s str hlt hcapgrow
    unfold append_console_output
    dsimp only
    repeat' split
    all_goals simp_all
    all_goals omega
  · intro maxSize l htot
    rw [runAppends_len_ok l (consoleInit maxSize) (by simp [consoleInit])]
    simp [consoleInit]
    omega

/-- Witness for the amended C5 theorem at concrete inputs. -/
theorem append_console_output_spec_witness :
    append_console_output true
        { content := [7, 7], capacity := 2, maxSize := 2, truncated := false } [8]
      = { content := [7, 7], capacity := 2, maxSize := 2, truncated := true } ∧
    (append_console_output true (consoleInit 3) [1, 2, 3, 4, 5]).content = [1, 2, 3] ∧
    (append_console_output true (consoleInit 3) [1, 2, 3, 4, 5]).truncated = true ∧
    (append_console_output false
        { content := [7], capacity := 1, maxSize := 10, truncated := false } [8]).content
      = [7] ∧
    (runAppends (consoleInit 3)
        ([[1, 2], [3, 4]].map (fun bs => (bs, true)))).content.length = 3 := by
  refine ⟨?_, ?_, ?_, ?_, ?_⟩
  · exact append_console_output_spec.1 true _ [8] (by decide) (by decide)
  · have h := (append_console_output_spec.2.1 (consoleInit 3) [1, 2, 3, 4, 5] (by decide)).1
    rw [h]; decide
  · have h := (append_console_output_spec.2.1 (consoleInit 3) [1, 2, 3, 4, 5] (by decide)).2
    rw [h]; decide
  · exact append_console_output_spec.2.2.1 _ [8] (by decide) (by decide)
  · exact append_console_output_spec.2.2.2 3 [[1, 2], [3, 4]] (by decide)

/- ===================== Claim C1 ===================== -/

/-- C1.  In `sandbox_eval`'s post-`JS_Eval` classification, the
`timed_out` check comes first and raises `TimeoutError` whatever the
engine returned, so whenever the timed-out flag is set the outcome is
TimedOut — in particular any exception the interpreter also produced is
discarded and never classified as a SyntaxError or ScriptError
outcome. -/
theorem eval_timeout_overrides (result : JSValue) (exc : EngineExcInfo)
    (console : ConsoleState) :
    classify_eval true result exc console = EvalOutcome.timedOut := by
  rfl

/- ===================== Claim C6 ===================== -/

theorem append_full (s : ConsoleState) (str : List Byte)
    (h : s.content.length + str.length ≤ s.maxSize) :
    (append_console_output true s str).content = s.content ++ str ∧
    (append_console_output true s str).truncated = s.truncated := by
  unfold append_console_output
  dsimp only
  by_cases h0 : str.length = 0
  · rw [if_pos h0]
    have hstr : str = [] := List.length_eq_zero.mp h0
    subst hstr
    simp
  · rw [if_neg h0, if_neg (by omega)]
    have hta : (if str.length < s.maxSize - s.content.length then str.length
        else s.maxSize - s.content.length) = str.length := by
      split <;> omega
    rw [hta]
    constructor <;> (repeat' split) <;> simp_all

theorem jsPrintArg_stringify (ok : Bool) (s : ConsoleState) (a : JSValue) :
    jsPrintArg ok s a = append_console_output ok s (stringifyPrintArg a) := by
  cases a <;> rfl

theorem jsPrintLoop_cons_first (ok : Bool) (s : ConsoleState) (a : JSValue)
    (rest : List JSValue) :
    jsPrintLoop ok true s (a :: rest) = jsPrintLoop ok false (jsPrintArg ok s a) rest := by
  rfl

theorem jsPrintLoop_cons_rest (ok : Bool) (s : ConsoleState) (a : JSValue)
    (rest : List JSValue) :
    jsPrintLoop ok false s (a :: rest)
      = jsPrintLoop ok false (jsPrintArg ok (append_console_output ok s [32]) a) rest := by
  rfl

theorem jsPrintLoop_content (args : List JSValue) :
    ∀ s : ConsoleState, (∀ a ∈ args, a ≠ JSValue.exception) →
      s.content.length + (sepJoin args).length ≤ s.maxSize →
      (jsPrintLoop true false s args).content = s.content ++ sepJoin args ∧
      (jsPrintLoop true false s args).truncated = s.truncated ∧
      (jsPrintLoop true false s args).maxSize = s.maxSize := by
  induction args with
  | nil => intro s _ _; simp [jsPrintLoop, sepJoin]
  | cons a rest ih =>
    intro s hne hfit
    have hsep : sepJoin (a :: rest) = 32 :: (stringifyPrintArg a ++ sepJoin rest) := by
      simp [sepJoin]
    rw [hsep] at hfit
    simp only [List.length_cons, List.length_append] at hfit
    rw [jsPrintLoop_cons_rest]
    have hsp := append_full s [32] (by simp; omega)
    have hms := append_maxSize true s [32]
    set s1 := append_console_output true s [32] with hs1
    have hlen1 : s1.content.length = s.content.length + 1 := by
      rw [hsp.1]; simp
    rw [jsPrintArg_stringify true s1 a]
    have harg := append_full s1 (stringifyPrintArg a) (by rw [hlen1, hms]; omega)
    have hms2 := append_maxSize true s1 (stringifyPrintArg a)
    set s2 := append_console_output true s1 (stringifyPrintArg a) with hs2
    have hlen2 : s2.content.length = s.content.length + 1 + (stringifyPrintArg a).length := by
      rw [harg.1]; simp only [List.length_append, hlen1]
    have hrest := ih s2 (fun b hb => hne b (by simp [hb]))
      (by rw [hlen2, hms2, hms]; omega)
    refine ⟨?_, ?_, ?_⟩
    · rw [hrest.1, harg.1, hsp.1, hsep]
      simp
    · rw [hrest.2.1, harg.2, hsp.2]
    · rw [hrest.2.2, hms2, hms]

/-- C6.  `js_print` with successful allocations, on a freshly reset
console large enough to hold the text: the resulting console contents
are exactly the stringified arguments joined by single separator bytes
(none before the first, none after the last), each string argument
contributing its exact bytes, plus exactly one trailing newline; and
concretely `print("a", 1, "b")` into a default-sized console yields the
text `"a 1 b\n"`. -/
theorem js_print_spec :
    (∀ (args : List JSValue) (s : ConsoleState),
      (∀ a ∈ args, a ≠ JSValue.exception) →
      s.content = [] → s.truncated = false →
      (printJoined args).length + 1 ≤ s.maxSize →
      (js_print true s args).content = printJoined args ++ [10] ∧
      (js_print true s args).truncated = false) ∧
    (js_print true (consoleInit 10000)
        [JSValue.string (bytesOfAscii "a"), JSValue.int32 1,
         JSValue.string (bytesOfAscii "b")]).content = bytesOfAscii "a 1 b\n" := by
  constructor
  · intro args s hne hempty htr hfit
    unfold js_print
    cases args with
    | nil =>
      rw [jsPrintLoop]
      have h10 := append_full s [10] (by simp [hempty]; omega)
      rw [h10.1, h10.2, hempty, htr]
      exact ⟨rfl, rfl⟩
    | cons a rest =>
      have hpj : printJoined (a :: rest) = stringifyPrintArg a ++ sepJoin rest := by
        simp [printJoined, sepJoin]
      rw [hpj] at hfit
      simp only [List.length_append] at hfit
      rw [jsPrintLoop_cons_first]
      rw [jsPrintArg_stringify true s a]
      have harg := append_full s (stringifyPrintArg a) (by rw [hempty]; simp; omega)
      have hms := append_maxSize true s (stringifyPrintArg a)
      set s1 := append_console_output true s (stringifyPrintArg a) with hs1
      have hlen1 : s1.content.length = (stringifyPrintArg a).length := by
        rw [harg.1, hempty]; simp
      have hloop := jsPrintLoop_content rest s1 (fun b hb => hne b (by simp [hb]))
        (by rw [hlen1, hms]; omega)
      have h10 := append_full (jsPrintLoop true false s1 rest)
        (by exact [10])
        (by rw [hloop.1, hloop.2.2, hms, harg.1, hempty]; simp; omega)
      rw [h10.1, h10.2, hloop.1, hloop.2.1, harg.1, harg.2, hempty, htr, hpj]
      exact ⟨by simp, rfl⟩
  · decide

/-- Witness for the C6 print theorem: its general part applied at a
concrete two-argument call. -/
theorem js_print_spec_witness :
    (js_print true (consoleInit 100)
        [JSValue.string [104, 105], JSValue.jsbool true]).content
      = [104, 105] ++ [32] ++ bytesOfAscii "true" ++ [10] := by
  have h := js_print_spec.1 [JSValue.string [104, 105], JSValue.jsbool true]
    (consoleInit 100) (by intro a ha; fin_cases ha <;> simp) rfl rfl (by decide)
  rw [h.1]
  decide

/-- Witness for the C2 invariants at concrete inputs. -/
theorem console_session_invariants_witness :
    (runConsoleOps (consoleInit 4)
        [ConsoleOp.append [1, 2, 3] true, ConsoleOp.reset,
         ConsoleOp.append [4, 5, 6] true]).content.length ≤ 4 ∧
    (runAppends { consoleInit 4 with truncated := true } [([9], true)]).truncated = true := by
  exact ⟨console_session_invariants.1 4 _, console_session_invariants.2.1 (consoleInit 4) _⟩

/- ===================== Claim C3 ===================== -/

/-- C3 counterexample.  The claim asserts that script-to-host
conversion is recursive on arrays, so that the host sequence `[2, 3]`
round-trips host→script→host to an equal sequence.  `js_to_ruby` has
no array case at all (mquickjs_ext.c lines 351-413 test null,
undefined, booleans, the exception sentinel, the integer tag, numbers
and strings, then fall back to `JS_ToString`), so the script array
`[2, 3]` comes back as the host text `"2,3"` — not a host sequence, as
the final Boolean conjunct records. -/
theorem array_round_trip_not_recursive :
    ruby_to_js true (RubyValue.rarray [RubyValue.rint 2, RubyValue.rint 3])
      = Except.ok (JSValue.array [JSValue.int32 2, JSValue.int32 3]) ∧
    js_to_ruby (JSValue.array [JSValue.int32 2, JSValue.int32 3])
      = RubyRet.val (RubyValue.rstring (bytesOfAscii "2,3")) ∧
    (match js_to_ruby (JSValue.array [JSValue.int32 2, JSValue.int32 3]) with
      | RubyRet.val (RubyValue.rarray _) => true
      | _ => false) = false := by
  exact ⟨rfl, rfl, rfl⟩

/-- C3, amended: script-to-host conversion is NOT recursive on the
array sub-path: arrays take the same textual fallback as objects, so
both directions of the spec's round-trip example produce host text.
(1) every script array converts to the engine's textual representation
of the array (`rb_str_new2` of `JS_ToString`);
(2) every script object likewise;
(3) concretely, the script array `[2, 3]` comes back as the text
`"2,3"`;
(4)-(5) the host mapping `{"a" => 1, "b" => [2, 3]}` converts to a
script object whose `"b"` slot is the script array `[2, 3]`, and that
object comes back as the text `"[object Object]"` — so neither the
outer mapping nor the embedded sequence round-trips to an equal host
value. -/
theorem js_to_ruby_fallback_spec :
    (∀ es : List JSValue, js_to_ruby (JSValue.array es)
        = RubyRet.val (RubyValue.rstring (takeUntilNul (jsToString (JSValue.array es))))) ∧
    (∀ props, js_to_ruby (JSValue.object props)
        = RubyRet.val (RubyValue.rstring (takeUntilNul (jsToString (JSValue.object props))))) ∧
    js_to_ruby (JSValue.array [JSValue.int32 2, JSValue.int32 3])
      = RubyRet.val (RubyValue.rstring (bytesOfAscii "2,3")) ∧
    ruby_to_js true (RubyValue.rhash
        [(RubyValue.rstring (bytesOfAscii "a"), RubyValue.rint 1),
         (RubyValue.rstring (bytesOfAscii "b"),
          RubyValue.rarray [RubyValue.rint 2, RubyValue.rint 3])])
      = Except.ok (JSValue.object
          [(bytesOfAscii "a", JSValue.int32 1),
           (bytesOfAscii "b", JSValue.array [JSValue.int32 2, JSValue.int32 3])]) ∧
    js_to_ruby (JSValue.object
        [(bytesOfAscii "a", JSValue.int32 1),
         (bytesOfAscii "b", JSValue.array [JSValue.int32 2, JSValue.int32 3])])
      = RubyRet.val (RubyValue.rstring (bytesOfAscii "[object Object]")) := by
  exact ⟨fun es => rfl, fun props => rfl, rfl, rfl, rfl⟩

/- ===================== Claim C8 ===================== -/

/-- C8 counterexample.  The claim asserts that every host text converts
to a script string with the same bytes, including texts with embedded
NUL bytes, without error.  The string branch of `ruby_to_js` (lines
450-454) goes through `StringValueCStr`, which raises `ArgumentError`
on an embedded NUL, so converting the text `"a\x00b"` errors instead of
producing a script string. -/
theorem ruby_string_nul_marshal_error :
    ruby_to_js true (RubyValue.rstring [97, 0, 98])
      = Except.error MarshalErr.nullByteArg := by
  rfl

/-- C8, amended: a host text free of NUL bytes (UTF-8 or not) converts
to a script string with exactly the same bytes, without error; a host
text containing a NUL byte raises `ArgumentError` (from
`StringValueCStr`) and produces no script value. -/
theorem ruby_string_marshal_spec :
    (∀ (alloc : Bool) (bs : List Byte), 0 ∉ bs →
      ruby_to_js alloc (RubyValue.rstring bs) = Except.ok (JSValue.string bs)) ∧
    (∀ (alloc : Bool) (bs : List Byte), 0 ∈ bs →
      ruby_to_js alloc (RubyValue.rstring bs) = Except.error MarshalErr.nullByteArg) := by
  constructor
  · intro alloc bs h
    simp [ruby_to_js, h]
  · intro alloc bs h
    simp [ruby_to_js, h]

/-- Witness for the amended C8 theorem: an arbitrary non-UTF8 byte run
converts byte-for-byte, and a NUL-containing run errors. -/
theorem ruby_string_marshal_spec_witness :
    ruby_to_js true (RubyValue.rstring [228, 185, 255])
      = Except.ok (JSValue.string [228, 185, 255]) ∧
    ruby_to_js false (RubyValue.rstring [1, 0])
      = Except.error MarshalErr.nullByteArg := by
  exact ⟨ruby_string_marshal_spec.1 true [228, 185, 255] (by decide),
         ruby_string_marshal_spec.2 false [1, 0] (by decide)⟩

/- ===================== Claim C9 ===================== -/

theorem zero_notin_natDecimalAux : ∀ fuel n : Nat, 0 ∉ natDecimalAux fuel n := by
  intro fuel
  induction fuel with
  | zero => intro n h; simp [natDecimalAux] at h
  | succ fuel ih =>
    intro n h
    rw [natDecimalAux] at h
    split at h
    · have h2 : (0 : Nat) = 48 + n := List.mem_singleton.mp h
      omega
    · rcases List.mem_append.mp h with h | h
      · exact ih _ h
      · have h2 : (0 : Nat) = 48 + n % 10 := List.mem_singleton.mp h
        omega

theorem zero_notin_intDecimalBytes (n : Int) : 0 ∉ intDecimalBytes n := by
  intro h
  unfold intDecimalBytes natDecimalBytes at h
  split at h
  · rcases List.mem_cons.mp h with h | h
    · have h2 : (0 : Nat) = 45 := h
      omega
    · exact zero_notin_natDecimalAux _ _ h
  · exact zero_notin_natDecimalAux _ _ h

/-- C9 counterexample.  The claim asserts that integral host numbers
outside the signed 32-bit range — including arbitrarily large ones —
become script numbers, never strings.  `ruby_to_js` only matches
`T_FIXNUM`, so the smallest Bignum, `2^62`, misses every numeric branch
and lands in the `to_s` fallback, producing the script STRING
`"4611686018427387904"`. -/
theorem bignum_marshals_to_string :
    ruby_to_js true (RubyValue.rint (2 ^ 62))
      = Except.ok (JSValue.string (bytesOfAscii "4611686018427387904")) := by
  rfl

/-- C9, amended: host integers in the signed 32-bit range convert to
tagged 32-bit script integers; host Fixnums outside that range convert
to 64-bit script floats; host floats convert to 64-bit script floats;
but host integers beyond the Fixnum range (`T_BIGNUM`) miss the numeric
branches entirely and convert to script STRINGS holding their decimal
text. -/
theorem ruby_number_marshal_spec :
    (∀ (alloc : Bool) (n : Int), inInt32Range n = true →
      ruby_to_js alloc (RubyValue.rint n) = Except.ok (JSValue.int32 n)) ∧
    (∀ (alloc : Bool) (n : Int), isFixnum n = true → inInt32Range n = false →
      ruby_to_js alloc (RubyValue.rint n)
        = Except.ok (JSValue.float64 (FloatVal.ofInt n))) ∧
    (∀ (alloc : Bool) (f : FloatVal),
      ruby_to_js alloc (RubyValue.rfloat f) = Except.ok (JSValue.float64 f)) ∧
    (∀ (alloc : Bool) (n : Int), isFixnum n = false →
      ruby_to_js alloc (RubyValue.rint n)
        = Except.ok (JSValue.string (intDecimalBytes n))) := by
  refine ⟨?_, ?_, ?_, ?_⟩
  · intro alloc n h
    have h32 := of_decide_eq_true h
    have hfix : isFixnum n = true := by
      apply decide_eq_true
      constructor <;> omega
    simp [ruby_to_js, hfix, h]
  · intro alloc n hfix h32
    simp [ruby_to_js, hfix, JS_NewInt64, h32]
  · intro alloc f
    simp [ruby_to_js]
  · intro alloc n hfix
    simp [ruby_to_js, hfix, rubyFallbackString, zero_notin_intDecimalBytes]

/-- Witness for the amended C9 theorem at concrete numbers: `7` stays a
tagged integer, `2^40` becomes a 64-bit float, a host double stays a
64-bit float, and `-2^62 - 1` (a negative Bignum) becomes its decimal
text. -/
theorem ruby_number_marshal_spec_witness :
    ruby_to_js true (RubyValue.rint 7) = Except.ok (JSValue.int32 7) ∧
    ruby_to_js true (RubyValue.rint (2 ^ 40))
      = Except.ok (JSValue.float64 (FloatVal.ofInt (2 ^ 40))) ∧
    ruby_to_js true (RubyValue.rfloat (FloatVal.hostDouble 5))
      = Except.ok (JSValue.float64 (FloatVal.hostDouble 5)) ∧
    ruby_to_js true (RubyValue.rint (-(2 ^ 62) - 1))
      = Except.ok (JSValue.string (intDecimalBytes (-(2 ^ 62) - 1))) := by
  exact ⟨ruby_number_marshal_spec.1 true 7 (by decide),
         ruby_number_marshal_spec.2.1 true (2 ^ 40) (by decide) (by decide),
         ruby_number_marshal_spec.2.2.1 true (FloatVal.hostDouble 5),
         ruby_number_marshal_spec.2.2.2 true (-(2 ^ 62) - 1) (by decide)⟩

/- ===================== Claim C10 ===================== -/

/-- C10 counterexample.  The claim asserts that every NON-EMPTY name is
bound after converting the value.  `sandbox_set_variable` reads the
name with `StringValueCStr`, which raises `ArgumentError` for any name
containing an embedded NUL byte, so the non-empty name `"a\x00b"`
raises before any conversion or binding — it is not bound. -/
theorem set_variable_nul_name_rejected :
    sandbox_set_variable true [] [97, 0, 98] RubyValue.rnil
      = Except.error HostErr.argumentError ∧
    ([97, 0, 98] : List Byte).length = 3 := by
  exact ⟨rfl, rfl⟩

/-- C10, amended: `set_variable` raises `ArgumentError` for the empty
name and for any name containing an embedded NUL byte, binding
nothing; for every other name it converts the value through
`ruby_to_js` — a `JS_EXCEPTION` conversion result raises
`RuntimeError` and binds nothing, a Ruby-level `ArgumentError` from
inside the conversion propagates — and on success defines the
converted value as a property of that name on the script global
object. -/
theorem sandbox_set_variable_spec :
    (∀ (alloc : Bool) (g : List (List Byte × JSValue)) (v : RubyValue),
      sandbox_set_variable alloc g [] v = Except.error HostErr.argumentError) ∧
    (∀ (alloc : Bool) (g : List (List Byte × JSValue)) (vname : List Byte) (v : RubyValue),
      0 ∈ vname →
      sandbox_set_variable alloc g vname v = Except.error HostErr.argumentError) ∧
    (∀ (alloc : Bool) (g : List (List Byte × JSValue)) (vname : List Byte)
        (v : RubyValue) (j : JSValue),
      0 ∉ vname → vname ≠ [] → ruby_to_js alloc v = Except.ok j →
      sandbox_set_variable alloc g vname v = Except.ok (setProp g vname j)) ∧
    (∀ (alloc : Bool) (g : List (List Byte × JSValue)) (vname : List Byte) (v : RubyValue),
      0 ∉ vname → vname ≠ [] → ruby_to_js alloc v = Except.error MarshalErr.jsException →
      sandbox_set_variable alloc g vname v = Except.error HostErr.runtimeError) ∧
    (∀ (alloc : Bool) (g : List (List Byte × JSValue)) (vname : List Byte) (v : RubyValue),
      0 ∉ vname → vname ≠ [] → ruby_to_js alloc v = Except.error MarshalErr.nullByteArg →
      sandbox_set_variable alloc g vname v = Except.error HostErr.argumentError) := by
  refine ⟨?_, ?_, ?_, ?_, ?_⟩
  · intro alloc g v
    simp [sandbox_set_variable]
  · intro alloc g vname v h
    simp [sandbox_set_variable, h]
  · intro alloc g vname v j h0 hne hconv
    simp [sandbox_set_variable, h0, hne, hconv]
  · intro alloc g vname v h0 hne hconv
    simp [sandbox_set_variable, h0, hne, hconv]
  · intro alloc g vname v h0 hne hconv
    simp [sandbox_set_variable, h0, hne, hconv]

/-- Witness for the C10 theorem: the empty name errors; the name
`"x"` binds nil (converted to script null) on the empty global; an
array value under a failing engine allocation raises `RuntimeError`;
a NUL-containing string value propagates `ArgumentError`. -/
theorem sandbox_set_variable_spec_witness :
    sandbox_set_variable true [] [] RubyValue.rnil = Except.error HostErr.argumentError ∧
    sandbox_set_variable true [] [120] RubyValue.rnil
      = Except.ok (setProp [] [120] JSValue.null) ∧
    sandbox_set_variable false [] [120] (RubyValue.rarray [])
      = Except.error HostErr.runtimeError ∧
    sandbox_set_variable true [] [120] (RubyValue.rstring [0])
      = Except.error HostErr.argumentError := by
  refine ⟨sandbox_set_variable_spec.1 true [] RubyValue.rnil, ?_, ?_, ?_⟩
  · exact sandbox_set_variable_spec.2.2.1 true [] [120] RubyValue.rnil JSValue.null
      (by decide) (by decide) rfl
  · exact sandbox_set_variable_spec.2.2.2.1 false [] [120] (RubyValue.rarray [])
      (by decide) (by decide) rfl
  · exact sandbox_set_variable_spec.2.2.2.2 true [] [120] (RubyValue.rstring [0])
      (by decide) (by decide) rfl

/- ===================== Claim C4 ===================== -/

/-- C4.  Construction-failure cleanup, evaluated on each failure path.
The claim holds for the FFI constructor: `mqjs_new_context` frees every
partial allocation and returns NULL, so nothing escapes (last three
conjuncts).  It FAILS for the Ruby constructor: when `JS_NewContext`
returns NULL, `sandbox_initialize` frees the console buffer and
`mem_buf` and raises, but the wrapper — still wrapped by the Ruby
object — keeps the freed pointers in `mem_buf`/`console_output`
(conjuncts 1-4: a reachable partially-initialized session with dangling
internals, later double-freed by `sandbox_free`); and when the console
buffer allocation fails it frees the wrapper struct itself while the
Ruby object still wraps it (conjunct 5). -/
theorem session_create_failure_cleanup :
    (sandboxInitModel true true false).raised = some HostErr.runtimeError ∧
    (sandboxInitModel true true false).live = [0] ∧
    (sandboxInitModel true true false).fields
      = ⟨some 1, some 2, none⟩ ∧
    danglingReachable (sandboxInitModel true true false) = true ∧
    danglingReachable (sandboxInitModel true false true) = true ∧
    (mqjsNewContextModel true true true false).ret = none ∧
    (mqjsNewContextModel true true true false).live = [] ∧
    (mqjsNewContextModel true false true true).ret = none ∧
    (mqjsNewContextModel true false true true).live = [] := by
  decide

/- ===================== Claim C7 ===================== -/

/-- C7.  The fetch bridge: (1) with no callback configured, `js_fetch`
immediately throws the feature-disabled script error, whatever the
arguments; (2) whenever a call with a configured callback succeeds, the
returned value is exactly a response object of the fixed shape — in
particular its `headers` property is the empty object and its `ok`
property is true iff the status lies in `[200, 300)`; (3) the `ok`
property of that shape is `status ∈ [200, 300)` for every status;
(4) a callback returning none of the optional fields — whatever
headers it supplies — yields the defaults `status 200`,
`statusText "OK"`, `body ""`, `ok true`, and empty `headers`. -/
theorem js_fetch_spec :
    (∀ args : List JSValue, js_fetch none args
        = Except.error (FetchErr.jsError
            (bytesOfAscii "fetch() is not enabled - HTTP callback not configured"))) ∧
    (∀ (cb : HttpCallback) (args : List JSValue) (v : JSValue),
      js_fetch (some cb) args = Except.ok v →
      ∃ (st : Int) (stx bd : List Byte), v = mkFetchResponse st stx bd) ∧
    (∀ (st : Int) (stx bd : List Byte),
      getProp [(bytesOfAscii "status", JSValue.int32 st),
               (bytesOfAscii "statusText", JSValue.string stx),
               (bytesOfAscii "ok", JSValue.jsbool (decide (200 ≤ st ∧ st < 300))),
               (bytesOfAscii "body", JSValue.string bd),
               (bytesOfAscii "headers", JSValue.object [])] (bytesOfAscii "headers")
          = JSValue.object [] ∧
      mkFetchResponse st stx bd
        = JSValue.object
            [(bytesOfAscii "status", JSValue.int32 st),
             (bytesOfAscii "statusText", JSValue.string stx),
             (bytesOfAscii "ok", JSValue.jsbool (decide (200 ≤ st ∧ st < 300))),
             (bytesOfAscii "body", JSValue.string bd),
             (bytesOfAscii "headers", JSValue.object [])]) ∧
    (∀ (hdrs : List (List Byte × List Byte)) (url : List Byte),
      js_fetch (some (fun _ _ _ _ =>
          { status := none, statusText := none, body := none, headers := some hdrs }))
        [JSValue.string url]
        = Except.ok (mkFetchResponse 200 (bytesOfAscii "OK") [])) := by
  refine ⟨?_, ?_, ?_, ?_⟩
  · intro args
    rfl
  · intro cb args v h
    unfold js_fetch at h
    dsimp only at h
    repeat' split at h
    all_goals first
      | exact ⟨_, _, _, (Except.ok.inj h).symm⟩
      | exact absurd h (by simp)
  · intro st stx bd
    exact ⟨rfl, rfl⟩
  · intro hdrs url
    rfl

/-- Witness for the C7 theorem: its success-shape part applied at a
concrete configured callback and call. -/
theorem js_fetch_spec_witness :
    ∃ (st : Int) (stx bd : List Byte),
      Except.ok (mkFetchResponse 204 (bytesOfAscii "No Content") (bytesOfAscii "x"))
        = (Except.ok (mkFetchResponse st stx bd) : Except FetchErr JSValue) := by
  obtain ⟨st, stx, bd, h⟩ := js_fetch_spec.2.1
    (fun _ _ _ _ =>
      { status := some 204, statusText := some (bytesOfAscii "No Content"),
        body := some (bytesOfAscii "x"), headers := none })
    [JSValue.string (bytesOfAscii "http://e")]
    (mkFetchResponse 204 (bytesOfAscii "No Content") (bytesOfAscii "x")) (by rfl)
  exact ⟨st, stx, bd, by rw [h]⟩

end MQJS
